import Mathlib

/-!
Shallow embedding of the lead-submission backend of the marketing-site
repository: the sanitizer `safe`, the identifier generator `generateId`,
the per-IP rate limiter `lastHitByIp` middleware, and the
`POST /api/lead` handler, together with proofs of the specification's
properties over these definitions.

Strings are modelled as `List Char`; a JavaScript value appearing in a
request body is modelled by `JsValue`; machine time is a `Nat` of epoch
milliseconds passed in as an oracle; the pseudo-random component of an
identifier and the success of the file append are likewise oracle inputs.
-/

namespace MarekIt

/-- A JavaScript value as it can occur in a parsed JSON request body:
the JSON scalars, arrays (with arbitrary nesting) and plain objects.
Every destructured field of `req.body` can hold any of these. -/
inductive JsValue where
  | vNull
  | vUndefined
  | vStr (s : List Char)
  | vBool (b : Bool)
  | vNum (n : Int)
  | vArr (elems : List JsValue)
  | vObj

open JsValue

/-- JavaScript truthiness of a modelled value (`!!v` / `if (v)`):
`null`, `undefined`, the empty string, `false` and `0` are falsy; every
object — including the empty array — is truthy. -/
def truthy : JsValue → Bool
  | vNull => false
  | vUndefined => false
  | vStr s => !s.isEmpty
  | vBool b => b
  | vNum n => n != 0
  | vArr _ => true
  | vObj => true

/-- Decimal digit character for a value below 10. -/
def decDigitChar (n : Nat) : Char :=
  Char.ofNat (48 + n)

/-- Fuel-driven decimal rendering of a natural number; the fuel only
bounds the recursion depth and `natToDec` supplies enough of it. -/
def natToDecAux : Nat → Nat → List Char
  | 0, _ => []
  | fuel + 1, n =>
    if n < 10 then [decDigitChar n]
    else natToDecAux fuel (n / 10) ++ [decDigitChar (n % 10)]

/-- `n.toString(10)` for a natural number: decimal digits, most
significant first, `"0"` for zero. -/
def natToDec (n : Nat) : List Char := natToDecAux (n + 1) n

/-- `String(i)` for an integral JavaScript number: decimal digits with a
leading `-` when negative. -/
def intToDec (i : Int) : List Char :=
  if i < 0 then '-' :: natToDec (-i).toNat else natToDec i.toNat

mutual

/-- JavaScript `String(v)` coercion on the modelled values: an array
stringifies as `join(",")` and a plain object as `"[object Object]"`. -/
def jsToString : JsValue → List Char
  | vNull => "null".data
  | vUndefined => "undefined".data
  | vStr s => s
  | vBool true => "true".data
  | vBool false => "false".data
  | vNum n => intToDec n
  | vArr es => jsArrJoin es
  | vObj => "[object Object]".data

/-- `Array.prototype.join(",")` under `String` coercion: elements
separated by commas, where a `null`/`undefined` element renders as the
empty string and every other element as its `String` coercion. -/
def jsArrJoin : List JsValue → List Char
  | [] => []
  | e :: es =>
    (match e with
     | vNull => []
     | vUndefined => []
     | x => jsToString x) ++
    (match es with
     | [] => []
     | _ => ',' :: jsArrJoin es)

end

/-- JavaScript `v ?? ""`: nullish coalescing to the empty string. -/
def coalesce (v : JsValue) : JsValue :=
  match v with
  | vNull => vStr []
  | vUndefined => vStr []
  | x => x

/-- The ECMAScript `\s` character class (WhiteSpace ∪ LineTerminator),
used both by the regex `/\s+/` and by `String.prototype.trim`. -/
def jsWs (c : Char) : Bool :=
  let n := c.toNat
  n == 0x20 || n == 0x09 || n == 0x0a || n == 0x0b || n == 0x0c || n == 0x0d ||
  n == 0xa0 || n == 0x1680 || (0x2000 <= n && n <= 0x200a) ||
  n == 0x2028 || n == 0x2029 || n == 0x202f || n == 0x205f ||
  n == 0x3000 || n == 0xfeff

/-- Worker for `replace(/\s+/g, " ")`: the flag records whether the
previous character belonged to a whitespace run already replaced by a
single space. -/
def collapseAux : Bool → List Char → List Char
  | _, [] => []
  | prevWs, c :: cs =>
    if jsWs c then
      if prevWs then collapseAux true cs
      else ' ' :: collapseAux true cs
    else c :: collapseAux false cs

/-- `s.replace(/\s+/g, " ")`: every maximal run of whitespace becomes one
space. -/
def collapseWs (s : List Char) : List Char := collapseAux false s

/-- `s.trimEnd()` restricted to what the model needs: drop the trailing
run of whitespace. -/
def dropTrailWs (s : List Char) : List Char :=
  (s.reverse.dropWhile jsWs).reverse

/-- `s.trim()`: drop the leading and the trailing whitespace runs. -/
def trimList (s : List Char) : List Char :=
  dropTrailWs (s.dropWhile jsWs)

/-- The collapse-then-trim core of the sanitizer:
`s.replace(/\s+/g, " ").trim()`. -/
def sanCore (s : List Char) : List Char :=
  trimList (collapseWs s)

/-- The sanitizer `safe` of the server:
`(v, max) => String(v ?? "").replace(/\s+/g, " ").trim().slice(0, max)`. -/
def safe (v : JsValue) (max : Nat) : List Char :=
  (sanCore (jsToString (coalesce v))).take max

/-- `safe` specialised to string inputs, the form quantified over in the
sanitizer properties of the specification. -/
def safeStr (s : List Char) (max : Nat) : List Char :=
  safe (vStr s) max

/-- Does the first character of `l`, when there is one, lie outside the
whitespace class? -/
def headNotWs : List Char → Bool
  | [] => true
  | c :: _ => !(jsWs c)

/-- Does the last character of `l`, when there is one, lie outside the
whitespace class? -/
def lastNotWs (l : List Char) : Bool :=
  headNotWs l.reverse

/-- No two adjacent characters of `l` are both whitespace: every
whitespace run has length at most one. -/
def noAdjWs : List Char → Bool
  | a :: b :: rest => (!(jsWs a && jsWs b)) && noAdjWs (b :: rest)
  | _ => true

/-- Every whitespace character occurring in `l` is the plain space. -/
def allWsSpace (l : List Char) : Bool :=
  l.all fun c => !(jsWs c) || c == ' '

/-- Propositional form of the adjacency condition, used to borrow the
chain lemmas of the library inside proofs. -/
def wsOk (a b : Char) : Prop :=
  (jsWs a && jsWs b) = false

/-- Hexadecimal digit character for a value below 16, lowercase as
produced by `Number.prototype.toString(16)`. -/
def hexDigitChar (n : Nat) : Char :=
  if n < 10 then Char.ofNat (48 + n) else Char.ofNat (87 + n)

/-- Fuel-driven worker for `n.toString(16)` on a natural number. The fuel
only bounds the recursion depth; `natToHex` supplies enough of it. -/
def natToHexAux : Nat → Nat → List Char
  | 0, _ => []
  | fuel + 1, n =>
    if n < 16 then [hexDigitChar n]
    else natToHexAux fuel (n / 16) ++ [hexDigitChar (n % 16)]

/-- `n.toString(16)` for a nonnegative integer `n`: lowercase hex digits,
most significant first, `"0"` for zero. -/
def natToHex (n : Nat) : List Char := natToHexAux (n + 1) n

/-- Is `c` a lowercase hexadecimal digit? -/
def isHexDigit (c : Char) : Bool :=
  ('0' ≤ c && c ≤ '9') || ('a' ≤ c && c ≤ 'f')

/-- The identifier generator:
`"lead_" + Math.random().toString(16).slice(2) + Date.now().toString(16)`.
`randHex` stands for `Math.random().toString(16).slice(2)` (the hex
digits of the random fraction) and `now` for `Date.now()`. -/
def generateId (randHex : List Char) (now : Nat) : List Char :=
  "lead_".data ++ randHex ++ natToHex now

/-- The fields the handler destructures from `req.body`; a field absent
from the JSON body destructures to `undefined`. -/
structure ReqBody where
  industry : JsValue
  problem : JsValue
  tools : JsValue
  message : JsValue
  contact : JsValue
  website : JsValue
  wantsMvp : JsValue
  wantsAutomation : JsValue

/-- A submitted value is missing, or empty after coercion to string:
the antecedent of the required-field claim. It does not imply falsiness:
the empty array satisfies it yet is truthy. -/
def missingOrEmpty (v : JsValue) : Prop :=
  v = JsValue.vUndefined ∨ jsToString v = []

/-- The destructuring of `{}` (every field `undefined`), used for
`req.body || {}` when the body is absent. -/
def emptyBody : ReqBody :=
  ⟨vUndefined, vUndefined, vUndefined, vUndefined,
   vUndefined, vUndefined, vUndefined, vUndefined⟩

/-- A lead record as serialized to one line of `data/leads.jsonl`. -/
structure Lead where
  id : List Char
  createdAt : List Char
  industry : List Char
  problem : List Char
  tools : List Char
  message : List Char
  contact : List Char
  website : List Char
  wantsMvp : Bool
  wantsAutomation : Bool
deriving DecidableEq, Repr

/-- The record the handler builds from a request body that passed
validation. `randHex` and `now` feed `generateId`, `createdAt` stands
for `new Date().toISOString()`. -/
def mkLead (b : ReqBody) (randHex : List Char) (now : Nat)
    (createdAt : List Char) : Lead where
  id := generateId randHex now
  createdAt := createdAt
  industry := safe b.industry 80
  problem := safe b.problem 120
  tools := safe b.tools 200
  message := safe b.message 2000
  contact := safe b.contact 120
  website := safe b.website 200
  wantsMvp := truthy b.wantsMvp
  wantsAutomation := truthy b.wantsAutomation

/-- The HTTP responses the server can produce on the modelled paths.
`other` stands for the static-file / health / SPA-fallback responses,
whose bodies the model does not inspect. -/
inductive Response where
  | ok200
  | badRequest400 (error : List Char)
  | tooMany429 (error : List Char)
  | serverError500 (error : List Char)
  | other
deriving DecidableEq, Repr

/-- `"Uzupełnij: branża, problem, opis, kontakt."` -/
def errMissing : List Char := "Uzupełnij: branża, problem, opis, kontakt.".data

/-- `"Za szybko. Spróbuj za chwilę."` -/
def errThrottle : List Char := "Za szybko. Spróbuj za chwilę.".data

/-- `"Błąd serwera. Spróbuj później."` -/
def errServer : List Char := "Błąd serwera. Spróbuj później.".data

/-- The `POST /api/lead` handler body (after the rate-limit middleware):
validation of the four required fields by truthiness, sanitization into
a `Lead`, then the append. `writeOk` is the oracle for whether
`fs.appendFile` succeeds; the second component is the lead file as a
list of records. -/
def handleLead (body : Option ReqBody) (randHex : List Char) (now : Nat)
    (createdAt : List Char) (writeOk : Bool) (leads : List Lead) :
    Response × List Lead :=
  let b := body.getD emptyBody
  if !(truthy b.industry && truthy b.problem &&
       truthy b.message && truthy b.contact) then
    (Response.badRequest400 errMissing, leads)
  else
    let lead := mkLead b randHex now createdAt
    if writeOk then (Response.ok200, leads ++ [lead])
    else (Response.serverError500 errServer, leads)

/-- The rate limiter's map `lastHitByIp`, as a function from the client
identifier to the recorded timestamp (`none` when the identifier was
never recorded). -/
def IpMap : Type := List Char → Option Nat

/-- The whole server state touched by a request: the limiter map and the
lead file. -/
structure ServerState where
  lastHit : IpMap
  leads : List Lead

/-- One request through the server: the rate-limit middleware (which
gates only paths prefixed `/api/`), then routing. A throttled request is
answered `429` with the map and file untouched; an admitted `/api/`
request records `now` for the identifier and, when the path is
`/api/lead` with a POST body, runs `handleLead`; every non-`/api/` path
bypasses the limiter and is answered by the static/SPA layer. -/
def serverStep (path : List Char) (ip : List Char) (now : Nat)
    (body : Option ReqBody) (randHex : List Char) (createdAt : List Char)
    (writeOk : Bool) (st : ServerState) : Response × ServerState :=
  if !("/api/".data.isPrefixOf path) then
    (Response.other, st)
  else
    let last : Nat := (st.lastHit ip).getD 0
    if (now : Int) - (last : Int) < 3000 then
      (Response.tooMany429 errThrottle, st)
    else
      let m : IpMap := fun k => if k = ip then some now else st.lastHit k
      if path = "/api/lead".data then
        let r := handleLead body randHex now createdAt writeOk st.leads
        (r.1, ⟨m, r.2⟩)
      else
        (Response.other, ⟨m, st.leads⟩)

/-! ### Library bridge for the adjacency predicate -/

theorem noAdjWs_iff : ∀ l : List Char, noAdjWs l = true ↔ l.Chain' wsOk
  | [] => by simp [noAdjWs, List.chain'_nil]
  | [a] => by simp [noAdjWs]
  | a :: b :: rest => by
    rw [List.chain'_cons, ← noAdjWs_iff (b :: rest)]
    simp only [noAdjWs, wsOk, Bool.and_eq_true, Bool.not_eq_true',
      Bool.and_eq_false_iff]

theorem chain_wsOk_reverse {l : List Char} (h : l.Chain' wsOk) :
    l.reverse.Chain' wsOk := by
  rw [List.chain'_reverse]
  refine h.imp fun a b hab => ?_
  show wsOk b a
  unfold wsOk at *
  rw [Bool.and_comm]
  exact hab

theorem dropWhile_isSuffix (p : Char → Bool) (l : List Char) :
    l.dropWhile p <:+ l :=
  ⟨l.takeWhile p, List.takeWhile_append_dropWhile p l⟩

theorem dropTrailWs_prefixOf (l : List Char) : dropTrailWs l <+: l :=
  ⟨(l.reverse.takeWhile jsWs).reverse, by
    unfold dropTrailWs
    rw [← List.reverse_append, List.takeWhile_append_dropWhile,
      List.reverse_reverse]⟩

theorem noAdjWs_dropWhile {l : List Char} (h : noAdjWs l = true) :
    noAdjWs (l.dropWhile jsWs) = true := by
  rw [noAdjWs_iff] at h ⊢
  exact h.suffix (dropWhile_isSuffix _ _)

theorem noAdjWs_dropTrail (l : List Char) (h : noAdjWs l = true) :
    noAdjWs (dropTrailWs l) = true := by
  rw [noAdjWs_iff] at h ⊢
  exact chain_wsOk_reverse
    ((chain_wsOk_reverse h).suffix (dropWhile_isSuffix _ _))

theorem noAdjWs_take (l : List Char) (n : Nat) (h : noAdjWs l = true) :
    noAdjWs (l.take n) = true := by
  rw [noAdjWs_iff] at h ⊢
  exact h.take n

theorem noAdjWs_tail {c : Char} {cs : List Char}
    (h : noAdjWs (c :: cs) = true) : noAdjWs cs = true := by
  cases cs with
  | nil => rfl
  | cons d ds =>
    simp only [noAdjWs, Bool.and_eq_true] at h
    exact h.2

theorem noAdjWs_cons_of_notWs {x : Char} {u : List Char}
    (hx : jsWs x = false) (hu : noAdjWs u = true) :
    noAdjWs (x :: u) = true := by
  cases u with
  | nil => rfl
  | cons d u' =>
    simp only [noAdjWs, hx, Bool.false_and, Bool.not_false, Bool.true_and]
    exact hu

theorem noAdjWs_cons_of_head {x : Char} {u : List Char}
    (hu : noAdjWs u = true) (hh : headNotWs u = true) :
    noAdjWs (x :: u) = true := by
  cases u with
  | nil => rfl
  | cons d u' =>
    have hd : jsWs d = false := by simpa [headNotWs] using hh
    simp only [noAdjWs, hd, Bool.and_false, Bool.not_false, Bool.true_and]
    exact hu

theorem headNotWs_of_noAdj {c : Char} {cs : List Char} (hc : jsWs c = true)
    (h : noAdjWs (c :: cs) = true) : headNotWs cs = true := by
  cases cs with
  | nil => rfl
  | cons d ds =>
    simp only [noAdjWs, hc, Bool.true_and, Bool.and_eq_true,
      Bool.not_eq_true'] at h
    simp [headNotWs, h.1]

/-! ### Head, trim and membership facts -/

theorem headNotWs_dropWhile (l : List Char) :
    headNotWs (l.dropWhile jsWs) = true := by
  induction l with
  | nil => rfl
  | cons c cs ih =>
    by_cases h : jsWs c = true
    · simpa [List.dropWhile_cons, h] using ih
    · simp [List.dropWhile_cons, h, headNotWs]

theorem headNotWs_of_prefix {u l : List Char} (hp : u <+: l)
    (hl : headNotWs l = true) : headNotWs u = true := by
  cases u with
  | nil => rfl
  | cons a u' =>
    obtain ⟨t, ht⟩ := hp
    subst ht
    simpa [headNotWs, List.cons_append] using hl

theorem allWsSpace_mono {u l : List Char} (hm : ∀ c ∈ u, c ∈ l)
    (hl : allWsSpace l = true) : allWsSpace u = true := by
  simp only [allWsSpace, List.all_eq_true] at hl ⊢
  exact fun c hc => hl c (hm c hc)

theorem allWsSpace_tail {c : Char} {cs : List Char}
    (h : allWsSpace (c :: cs) = true) : allWsSpace cs = true := by
  simp only [allWsSpace, List.all_cons, Bool.and_eq_true] at h
  exact h.2

theorem dropWhile_fix {l : List Char} (h : headNotWs l = true) :
    l.dropWhile jsWs = l := by
  cases l with
  | nil => rfl
  | cons c cs =>
    have hc : jsWs c = false := by simpa [headNotWs] using h
    simp [List.dropWhile_cons, hc]

theorem dropTrail_fix {l : List Char} (h : lastNotWs l = true) :
    dropTrailWs l = l := by
  unfold dropTrailWs
  rw [dropWhile_fix (by simpa [lastNotWs] using h), List.reverse_reverse]

/-! ### The collapse pass -/

theorem collapseAux_allWsSpace (l : List Char) :
    ∀ b, allWsSpace (collapseAux b l) = true := by
  induction l with
  | nil => intro b; rfl
  | cons c cs ih =>
    intro b
    by_cases h : jsWs c = true
    · cases b
      · simp only [collapseAux, h, if_true, Bool.false_eq_true, if_false,
          allWsSpace, List.all_cons, Bool.and_eq_true]
        refine ⟨by decide, ?_⟩
        simpa [allWsSpace] using ih true
      · simpa [collapseAux, h] using ih true
    · have hf : jsWs c = false := by simpa using h
      have hb : collapseAux b (c :: cs) = c :: collapseAux false cs := by
        cases b <;> simp [collapseAux, hf]
      rw [hb]
      simp only [allWsSpace, List.all_cons, Bool.and_eq_true]
      refine ⟨by simp [hf], ?_⟩
      simpa [allWsSpace] using ih false

theorem collapseAux_noAdj_head (l : List Char) :
    (∀ b, noAdjWs (collapseAux b l) = true) ∧
      headNotWs (collapseAux true l) = true := by
  induction l with
  | nil => exact ⟨fun _ => rfl, rfl⟩
  | cons c cs ih =>
    obtain ⟨ihN, ihH⟩ := ih
    by_cases h : jsWs c = true
    · refine ⟨fun b => ?_, by simpa [collapseAux, h] using ihH⟩
      cases b
      · simp only [collapseAux, h, if_true, Bool.false_eq_true, if_false]
        exact noAdjWs_cons_of_head (ihN true) ihH
      · simpa [collapseAux, h] using ihN true
    · have hf : jsWs c = false := by simpa using h
      have hb : ∀ b, collapseAux b (c :: cs) = c :: collapseAux false cs := by
        intro b; cases b <;> simp [collapseAux, hf]
      refine ⟨fun b => ?_, ?_⟩
      · rw [hb b]
        exact noAdjWs_cons_of_notWs hf (ihN false)
      · rw [hb true]
        simp [headNotWs, hf]

theorem collapseAux_length (l : List Char) :
    ∀ b, (collapseAux b l).length ≤ l.length := by
  induction l with
  | nil => intro b; simp [collapseAux]
  | cons c cs ih =>
    intro b
    by_cases h : jsWs c = true
    · cases b
      · have := ih true
        simp only [collapseAux, h, if_true, Bool.false_eq_true, if_false,
          List.length_cons]
        omega
      · have := ih true
        simp only [collapseAux, h, if_true, if_pos rfl, List.length_cons]
        omega
    · have hf : jsWs c = false := by simpa using h
      have hb : collapseAux b (c :: cs) = c :: collapseAux false cs := by
        cases b <;> simp [collapseAux, hf]
      have := ih false
      rw [hb]
      simp only [List.length_cons]
      omega

theorem collapseAux_fix (l : List Char) :
    ∀ b, allWsSpace l = true → noAdjWs l = true →
      (b = true → headNotWs l = true) → collapseAux b l = l := by
  induction l with
  | nil => intro b _ _ _; rfl
  | cons c cs ih =>
    intro b hAll hAdj hHead
    by_cases h : jsWs c = true
    · cases b
      · have hc : c = ' ' := by
          have hm := List.all_eq_true.mp hAll c (by simp)
          simp only [h, Bool.not_true, Bool.false_or] at hm
          exact eq_of_beq hm
        subst hc
        simp only [collapseAux, h, if_true, Bool.false_eq_true, if_false]
        rw [ih true (allWsSpace_tail hAll) (noAdjWs_tail hAdj)
          (fun _ => headNotWs_of_noAdj h hAdj)]
      · have := hHead rfl
        simp [headNotWs, h] at this
    · have hf : jsWs c = false := by simpa using h
      have hcs : collapseAux false cs = cs :=
        ih false (allWsSpace_tail hAll) (noAdjWs_tail hAdj)
          (fun hb => Bool.noConfusion hb)
      cases b <;> simp [collapseAux, hf, hcs]

/-! ### The trim pass and the sanitizer core -/

theorem headNotWs_trimList (l : List Char) :
    headNotWs (trimList l) = true :=
  headNotWs_of_prefix (dropTrailWs_prefixOf _) (headNotWs_dropWhile l)

theorem lastNotWs_trimList (l : List Char) :
    lastNotWs (trimList l) = true := by
  unfold trimList dropTrailWs lastNotWs
  rw [List.reverse_reverse]
  exact headNotWs_dropWhile _

theorem noAdjWs_trimList {l : List Char} (h : noAdjWs l = true) :
    noAdjWs (trimList l) = true :=
  noAdjWs_dropTrail _ (noAdjWs_dropWhile h)

theorem allWsSpace_trimList {l : List Char} (h : allWsSpace l = true) :
    allWsSpace (trimList l) = true := by
  refine allWsSpace_mono (fun c hc => ?_) h
  have h1 := (dropTrailWs_prefixOf (l.dropWhile jsWs)).sublist.subset hc
  exact (dropWhile_isSuffix jsWs l).sublist.subset h1

theorem trimList_length (l : List Char) : (trimList l).length ≤ l.length :=
  le_trans (dropTrailWs_prefixOf _).sublist.length_le
    (dropWhile_isSuffix _ _).sublist.length_le

theorem sanCore_headNotWs (s : List Char) :
    headNotWs (sanCore s) = true := headNotWs_trimList _

theorem sanCore_lastNotWs (s : List Char) :
    lastNotWs (sanCore s) = true := lastNotWs_trimList _

theorem sanCore_noAdjWs (s : List Char) : noAdjWs (sanCore s) = true :=
  noAdjWs_trimList ((collapseAux_noAdj_head s).1 false)

theorem sanCore_allWsSpace (s : List Char) :
    allWsSpace (sanCore s) = true :=
  allWsSpace_trimList (collapseAux_allWsSpace s false)

theorem sanCore_length (s : List Char) :
    (sanCore s).length ≤ s.length :=
  le_trans (trimList_length _) (collapseAux_length s false)

theorem sanCore_of_clean {y : List Char} (hA : allWsSpace y = true)
    (hN : noAdjWs y = true) (hH : headNotWs y = true) :
    sanCore y = dropTrailWs y := by
  unfold sanCore trimList collapseWs
  rw [collapseAux_fix y false hA hN (fun hb => Bool.noConfusion hb),
    dropWhile_fix hH]

/-! ### Digit rendering, truthiness and handler helpers -/

theorem hexDigitChar_hex : ∀ k < 16, isHexDigit (hexDigitChar k) = true := by
  decide

theorem natToHexAux_hex (fuel : Nat) :
    ∀ n c, c ∈ natToHexAux fuel n → isHexDigit c = true := by
  induction fuel with
  | zero => intro n c hc; simp [natToHexAux] at hc
  | succ fuel ih =>
    intro n c hc
    unfold natToHexAux at hc
    by_cases h : n < 16
    · simp only [h, if_true, List.mem_singleton] at hc
      subst hc
      exact hexDigitChar_hex n h
    · simp only [h, if_false, List.mem_append, List.mem_singleton] at hc
      rcases hc with hc | hc
      · exact ih _ _ hc
      · subst hc
        exact hexDigitChar_hex _ (Nat.mod_lt _ (by decide))

theorem natToHex_hex (n : Nat) : ∀ c ∈ natToHex n, isHexDigit c = true :=
  fun c hc => natToHexAux_hex (n + 1) n c hc

theorem natToDecAux_ne_nil (fuel n : Nat) :
    natToDecAux (fuel + 1) n ≠ [] := by
  unfold natToDecAux
  split <;> simp

theorem intToDec_ne_nil (i : Int) : intToDec i ≠ [] := by
  unfold intToDec
  split
  · simp
  · exact natToDecAux_ne_nil _ _

theorem mkLead_lengths (b : ReqBody) (rh : List Char) (now : Nat)
    (ca : List Char) :
    (mkLead b rh now ca).industry.length ≤ 80 ∧
    (mkLead b rh now ca).problem.length ≤ 120 ∧
    (mkLead b rh now ca).tools.length ≤ 200 ∧
    (mkLead b rh now ca).message.length ≤ 2000 ∧
    (mkLead b rh now ca).contact.length ≤ 120 ∧
    (mkLead b rh now ca).website.length ≤ 200 :=
  ⟨List.length_take_le _ _, List.length_take_le _ _,
   List.length_take_le _ _, List.length_take_le _ _,
   List.length_take_le _ _, List.length_take_le _ _⟩

theorem handleLead_ne_throttle (body : Option ReqBody) (rh : List Char)
    (now : Nat) (ca : List Char) (wk : Bool) (leads : List Lead)
    (e : List Char) :
    (handleLead body rh now ca wk leads).1 ≠ Response.tooMany429 e := by
  unfold handleLead
  by_cases hv : (!(truthy (body.getD emptyBody).industry &&
      truthy (body.getD emptyBody).problem &&
      truthy (body.getD emptyBody).message &&
      truthy (body.getD emptyBody).contact)) = true
  · simp [hv]
  · cases wk <;> simp [hv]

/-! ### Claim theorems -/

/-- C6: for every input value `v` and maximum length `n`, `safe v n`
coerces `null`/`undefined` to the empty string, collapses every run of
whitespace to a single space (every whitespace character of the output
is a plain space and no two adjacent output characters are whitespace),
trims leading whitespace (and, before any truncation cuts in, trailing
whitespace), truncates to at most `n` characters as a hard cut of the
normalized string, and its output length never exceeds `n`; it is a
total function by construction. -/
theorem sanitize_spec (v : JsValue) (n : Nat) :
    (safe JsValue.vNull n = [] ∧ safe JsValue.vUndefined n = []) ∧
    (safe v n).length ≤ n ∧
    allWsSpace (safe v n) = true ∧
    noAdjWs (safe v n) = true ∧
    headNotWs (safe v n) = true ∧
    (∀ m, (sanCore (jsToString (coalesce v))).length ≤ m →
      lastNotWs (safe v m) = true) ∧
    (∀ m, n ≤ m → safe v n = (safe v m).take n) := by
  refine ⟨⟨?_, ?_⟩, ?_, ?_, ?_, ?_, ?_, ?_⟩
  · show (sanCore (jsToString (coalesce JsValue.vNull))).take n = []
    simp [coalesce, jsToString, sanCore, collapseWs, collapseAux, trimList,
      dropTrailWs]
  · show (sanCore (jsToString (coalesce JsValue.vUndefined))).take n = []
    simp [coalesce, jsToString, sanCore, collapseWs, collapseAux, trimList,
      dropTrailWs]
  · exact List.length_take_le _ _
  · exact allWsSpace_mono
      (fun c hc => (List.take_sublist n _).subset hc)
      (sanCore_allWsSpace _)
  · exact noAdjWs_take _ n (sanCore_noAdjWs _)
  · exact headNotWs_of_prefix ( List.take_prefix n _) (sanCore_headNotWs _)
  · intro m hm
    show lastNotWs ((sanCore (jsToString (coalesce v))).take m) = true
    rw [List.take_of_length_le hm]
    exact sanCore_lastNotWs _
  · intro m hnm
    show (sanCore (jsToString (coalesce v))).take n =
      ((sanCore (jsToString (coalesce v))).take m).take n
    rw [List.take_take, Nat.min_eq_left hnm]

/-- Witness for C6 at a concrete input: `"  a  b "` sanitized with
maximum 3 is the hard cut `"a b"`, the untruncated form has no trailing
whitespace, and truncation is a prefix of the longer cut. -/
theorem sanitize_spec_witness :
    safe (JsValue.vStr "  a  b ".data) 3 = "a b".data ∧
    lastNotWs (safe (JsValue.vStr "  a  b ".data) 7) = true ∧
    safe (JsValue.vStr "  a  b ".data) 3 =
      (safe (JsValue.vStr "  a  b ".data) 7).take 3 := by
  refine ⟨by decide, ?_, ?_⟩
  · exact (sanitize_spec (JsValue.vStr "  a  b ".data) 3).2.2.2.2.2.1 7
      (by decide)
  · exact (sanitize_spec (JsValue.vStr "  a  b ".data) 3).2.2.2.2.2.2 7
      (by decide)

/-- Counterexample to C5 as stated: with `x = "a b"` and `n = 2`,
`sanitize(x, 2) = "a "` (the truncation cuts right after the space), and
a second application strips that trailing space, giving `"a"`. -/
theorem sanitize_idem_cex :
    safeStr (safeStr "a b".data 2) 2 ≠ safeStr "a b".data 2 := by decide

/-- C5 amended: the second application of the sanitizer differs from the
first only by stripping the trailing space a truncation can leave:
`sanitize(sanitize(x,n),n) = trimEnd(sanitize(x,n))`; in particular the
sanitizer is idempotent whenever no truncation occurs, i.e. whenever the
collapsed-and-trimmed string already fits within `n`. -/
theorem sanitize_idem_trimmed (x : List Char) (n : Nat) :
    safeStr (safeStr x n) n = dropTrailWs (safeStr x n) ∧
    ((sanCore x).length ≤ n → safeStr (safeStr x n) n = safeStr x n) := by
  have hA : allWsSpace (safeStr x n) = true :=
    allWsSpace_mono (fun c hc => (List.take_sublist n _).subset hc)
      (sanCore_allWsSpace x)
  have hN : noAdjWs (safeStr x n) = true :=
    noAdjWs_take _ n (sanCore_noAdjWs x)
  have hH : headNotWs (safeStr x n) = true :=
    headNotWs_of_prefix ( List.take_prefix n _) (sanCore_headNotWs x)
  have hlen : (safeStr x n).length ≤ n := List.length_take_le _ _
  have hmain : safeStr (safeStr x n) n = dropTrailWs (safeStr x n) := by
    show (sanCore (safeStr x n)).take n = dropTrailWs (safeStr x n)
    rw [sanCore_of_clean hA hN hH]
    exact List.take_of_length_le
      (le_trans (dropTrailWs_prefixOf _).sublist.length_le hlen)
  refine ⟨hmain, fun hle => ?_⟩
  have h1 : safeStr x n = sanCore x := by
    show (sanCore x).take n = sanCore x
    exact List.take_of_length_le hle
  rw [hmain, h1, dropTrail_fix (sanCore_lastNotWs x)]

/-- Witness for the amended C5: at `x = "a b"`, `n = 2` the equation
with the stripped trailing space holds, and at `n = 3` (no truncation)
idempotence holds outright. -/
theorem sanitize_idem_trimmed_witness :
    safeStr (safeStr "a b".data 2) 2 = dropTrailWs (safeStr "a b".data 2) ∧
    safeStr (safeStr "a b".data 3) 3 = safeStr "a b".data 3 :=
  ⟨(sanitize_idem_trimmed "a b".data 2).1,
   (sanitize_idem_trimmed "a b".data 3).2 (by decide)⟩

/-- C7: every identifier the generator produces is the fixed prefix
`lead_` followed by the pseudo-random hex component and the epoch time
rendered in lowercase hexadecimal; assuming the random component consists
of hex digits (as `Math.random().toString(16).slice(2)` yields), every
character after the prefix is a hex digit. -/
theorem generateId_format (rh : List Char) (now : Nat)
    (h : ∀ c ∈ rh, isHexDigit c = true) :
    generateId rh now = "lead_".data ++ (rh ++ natToHex now) ∧
    "lead_".data <+: generateId rh now ∧
    (∀ c ∈ (generateId rh now).drop 5, isHexDigit c = true) := by
  refine ⟨by simp [generateId, List.append_assoc], ?_, ?_⟩
  · show "lead_".data <+: "lead_".data ++ rh ++ natToHex now
    exact ( List.prefix_append _ _).trans ( List.prefix_append _ _)
  · have hd : (generateId rh now).drop 5 = rh ++ natToHex now := by
      show ("lead_".data ++ rh ++ natToHex now).drop 5 = rh ++ natToHex now
      rw [List.append_assoc]
      exact List.drop_left "lead_".data (rh ++ natToHex now)
    rw [hd]
    intro c hc
    rcases List.mem_append.mp hc with h1 | h2
    · exact h c h1
    · exact natToHex_hex now c h2

/-- Witness for C7: with random component `"ab"` and time `255` the
identifier is `lead_` ++ `ab` ++ `ff` and carries the `lead_` prefix. -/
theorem generateId_format_witness :
    generateId "ab".data 255 = "lead_".data ++ ("ab".data ++ natToHex 255) ∧
    "lead_".data <+: generateId "ab".data 255 :=
  ⟨(generateId_format "ab".data 255 (by decide)).1,
   (generateId_format "ab".data 255 (by decide)).2.1⟩

/-- C1: for every submission whose four required fields are truthy and
whose append succeeds, the handler answers `200 {ok:true}`, appends
exactly one record to the lead file, and that record has the `lead_`
prefix on its identifier and satisfies every length constraint of the
data model (the boolean fields are booleans by construction). -/
theorem valid_submission_ok (body : Option ReqBody) (rh : List Char)
    (now : Nat) (ca : List Char) (leads : List Lead)
    (h1 : truthy (body.getD emptyBody).industry = true)
    (h2 : truthy (body.getD emptyBody).problem = true)
    (h3 : truthy (body.getD emptyBody).message = true)
    (h4 : truthy (body.getD emptyBody).contact = true) :
    handleLead body rh now ca true leads =
      (Response.ok200, leads ++ [mkLead (body.getD emptyBody) rh now ca]) ∧
    (handleLead body rh now ca true leads).2.length = leads.length + 1 ∧
    "lead_".data <+: (mkLead (body.getD emptyBody) rh now ca).id ∧
    ((mkLead (body.getD emptyBody) rh now ca).industry.length ≤ 80 ∧
     (mkLead (body.getD emptyBody) rh now ca).problem.length ≤ 120 ∧
     (mkLead (body.getD emptyBody) rh now ca).tools.length ≤ 200 ∧
     (mkLead (body.getD emptyBody) rh now ca).message.length ≤ 2000 ∧
     (mkLead (body.getD emptyBody) rh now ca).contact.length ≤ 120 ∧
     (mkLead (body.getD emptyBody) rh now ca).website.length ≤ 200) := by
  have hmain : handleLead body rh now ca true leads =
      (Response.ok200, leads ++ [mkLead (body.getD emptyBody) rh now ca]) := by
    unfold handleLead
    simp [h1, h2, h3, h4]
  refine ⟨hmain, ?_, ?_, mkLead_lengths _ _ _ _⟩
  · rw [hmain]
    simp
  · show "lead_".data <+: "lead_".data ++ rh ++ natToHex now
    exact ( List.prefix_append _ _).trans ( List.prefix_append _ _)

/-- Witness for C1 at a concrete valid submission over an empty file. -/
theorem valid_submission_ok_witness :
    handleLead (some ⟨JsValue.vStr "i".data, JsValue.vStr "p".data,
        JsValue.vUndefined, JsValue.vStr "m".data, JsValue.vStr "c".data,
        JsValue.vUndefined, JsValue.vUndefined, JsValue.vUndefined⟩)
      "ab".data 255 "t".data true [] =
      (Response.ok200,
       [mkLead ⟨JsValue.vStr "i".data, JsValue.vStr "p".data,
          JsValue.vUndefined, JsValue.vStr "m".data, JsValue.vStr "c".data,
          JsValue.vUndefined, JsValue.vUndefined, JsValue.vUndefined⟩
          "ab".data 255 "t".data]) := by
  have h := valid_submission_ok
    (some ⟨JsValue.vStr "i".data, JsValue.vStr "p".data,
      JsValue.vUndefined, JsValue.vStr "m".data, JsValue.vStr "c".data,
      JsValue.vUndefined, JsValue.vUndefined, JsValue.vUndefined⟩)
    "ab".data 255 "t".data [] (by decide) (by decide) (by decide) (by decide)
  simpa using h.1

/-- Counterexample to C2 as stated: a whitespace-only `industry` value
(`" "`) is truthy, so validation passes, yet sanitization collapses it to
the empty string — the persisted record's required field is empty after
sanitization. -/
theorem persisted_nonempty_cex :
    (handleLead (some ⟨JsValue.vStr " ".data, JsValue.vStr "p".data,
        JsValue.vUndefined, JsValue.vStr "m".data, JsValue.vStr "c".data,
        JsValue.vUndefined, JsValue.vUndefined, JsValue.vUndefined⟩)
      "ab".data 255 "t".data true []).1 = Response.ok200 ∧
    (handleLead (some ⟨JsValue.vStr " ".data, JsValue.vStr "p".data,
        JsValue.vUndefined, JsValue.vStr "m".data, JsValue.vStr "c".data,
        JsValue.vUndefined, JsValue.vUndefined, JsValue.vUndefined⟩)
      "ab".data 255 "t".data true []).2.length = 1 ∧
    ∀ l ∈ (handleLead (some ⟨JsValue.vStr " ".data, JsValue.vStr "p".data,
        JsValue.vUndefined, JsValue.vStr "m".data, JsValue.vStr "c".data,
        JsValue.vUndefined, JsValue.vUndefined, JsValue.vUndefined⟩)
      "ab".data 255 "t".data true []).2, l.industry = [] := by decide

/-- C2 amended: every run of the handler either leaves the lead file
unchanged, or appends exactly the sanitized record. In the latter case
validation passed first (each required field was truthy) and the
persisted record satisfies every length constraint; sanitization may
still leave a required field empty when the submitted value was
whitespace-only, or a truthy non-string such as the empty array whose
string coercion is empty. -/
theorem persisted_constraints (body : Option ReqBody) (rh : List Char)
    (now : Nat) (ca : List Char) (wk : Bool) (leads : List Lead) :
    (handleLead body rh now ca wk leads).2 = leads ∨
    ((handleLead body rh now ca wk leads).2 =
        leads ++ [mkLead (body.getD emptyBody) rh now ca] ∧
     truthy (body.getD emptyBody).industry = true ∧
     truthy (body.getD emptyBody).problem = true ∧
     truthy (body.getD emptyBody).message = true ∧
     truthy (body.getD emptyBody).contact = true ∧
     ((mkLead (body.getD emptyBody) rh now ca).industry.length ≤ 80 ∧
      (mkLead (body.getD emptyBody) rh now ca).problem.length ≤ 120 ∧
      (mkLead (body.getD emptyBody) rh now ca).tools.length ≤ 200 ∧
      (mkLead (body.getD emptyBody) rh now ca).message.length ≤ 2000 ∧
      (mkLead (body.getD emptyBody) rh now ca).contact.length ≤ 120 ∧
      (mkLead (body.getD emptyBody) rh now ca).website.length ≤ 200)) := by
  by_cases hv : (truthy (body.getD emptyBody).industry &&
      truthy (body.getD emptyBody).problem &&
      truthy (body.getD emptyBody).message &&
      truthy (body.getD emptyBody).contact) = true
  · cases wk
    · left
      unfold handleLead
      simp [hv]
    · right
      have h4 := hv
      simp only [Bool.and_eq_true] at h4
      refine ⟨?_, h4.1.1.1, h4.1.1.2, h4.1.2, h4.2, mkLead_lengths _ _ _ _⟩
      unfold handleLead
      simp [hv]
  · left
    unfold handleLead
    simp [hv]

/-- Counterexample to C4 as stated: an empty array is empty after
coercion to string (`String([]) = ""`), yet arrays are truthy, so a
request with `industry: []` passes validation — the endpoint answers
`200` and persists a record (with `industry` sanitized to the empty
string) instead of the claimed `400`. -/
theorem missing_fields_400_cex :
    missingOrEmpty (JsValue.vArr []) ∧
    (handleLead (some ⟨JsValue.vArr [], JsValue.vStr "p".data,
        JsValue.vUndefined, JsValue.vStr "m".data, JsValue.vStr "c".data,
        JsValue.vUndefined, JsValue.vUndefined, JsValue.vUndefined⟩)
      "ab".data 255 "t".data true []).1 = Response.ok200 ∧
    (handleLead (some ⟨JsValue.vArr [], JsValue.vStr "p".data,
        JsValue.vUndefined, JsValue.vStr "m".data, JsValue.vStr "c".data,
        JsValue.vUndefined, JsValue.vUndefined, JsValue.vUndefined⟩)
      "ab".data 255 "t".data true []).2.length = 1 := by
  refine ⟨Or.inr rfl, ?_, ?_⟩ <;> decide

/-- C4 amended: the handler answers `400` exactly on falsiness, not
string-emptiness: whenever any of the four required fields is falsy —
missing/`undefined`, `null`, the empty string, `false` or `0` — it
returns `400` with the exact message and the lead file is not modified.
(A value that is merely empty after coercion, such as the empty array,
is truthy and gets admitted instead.) -/
theorem missing_fields_400 (body : Option ReqBody) (rh : List Char)
    (now : Nat) (ca : List Char) (wk : Bool) (leads : List Lead)
    (h : truthy (body.getD emptyBody).industry = false ∨
         truthy (body.getD emptyBody).problem = false ∨
         truthy (body.getD emptyBody).message = false ∨
         truthy (body.getD emptyBody).contact = false) :
    handleLead body rh now ca wk leads =
      (Response.badRequest400 errMissing, leads) := by
  unfold handleLead
  rcases h with h | h | h | h <;> simp [h]

/-- Witness for C4: the empty body `{}` (every field `undefined`, hence
falsy) is answered `400` with the exact message and no file write. -/
theorem missing_fields_400_witness :
    handleLead none "ab".data 255 "t".data true [] =
      (Response.badRequest400 errMissing, []) :=
  missing_fields_400 none "ab".data 255 "t".data true [] (Or.inl rfl)

/-- C9: the persisted `wantsMvp`/`wantsAutomation` are the JavaScript
truthiness of the submitted values, not a parse of their content: any
non-empty string — including `"false"` — persists as `true`, while an
absent, `null`, `false` or `0` value persists as `false`. -/
theorem wants_flags_truthiness (b : ReqBody) (rh : List Char) (now : Nat)
    (ca : List Char) (leads : List Lead)
    (h1 : truthy b.industry = true) (h2 : truthy b.problem = true)
    (h3 : truthy b.message = true) (h4 : truthy b.contact = true) :
    (handleLead (some b) rh now ca true leads).2 =
      leads ++ [mkLead b rh now ca] ∧
    (mkLead b rh now ca).wantsMvp = truthy b.wantsMvp ∧
    (mkLead b rh now ca).wantsAutomation = truthy b.wantsAutomation ∧
    (∀ s : List Char, s ≠ [] → truthy (JsValue.vStr s) = true) ∧
    truthy (JsValue.vStr "false".data) = true ∧
    truthy JsValue.vUndefined = false ∧
    truthy JsValue.vNull = false ∧
    truthy (JsValue.vBool false) = false ∧
    truthy (JsValue.vNum 0) = false := by
  refine ⟨?_, rfl, rfl, ?_, by decide, rfl, rfl, rfl, by decide⟩
  · unfold handleLead
    simp [h1, h2, h3, h4]
  · intro s hs
    simp [truthy, List.isEmpty_iff, hs]

/-- Witness for C9: a body submitting `wantsMvp: "false"` and omitting
`wantsAutomation` persists `wantsMvp = true`, `wantsAutomation = false`. -/
theorem wants_flags_truthiness_witness :
    (mkLead ⟨JsValue.vStr "i".data, JsValue.vStr "p".data,
        JsValue.vUndefined, JsValue.vStr "m".data, JsValue.vStr "c".data,
        JsValue.vUndefined, JsValue.vStr "false".data, JsValue.vUndefined⟩
      "ab".data 255 "t".data).wantsMvp = true ∧
    (mkLead ⟨JsValue.vStr "i".data, JsValue.vStr "p".data,
        JsValue.vUndefined, JsValue.vStr "m".data, JsValue.vStr "c".data,
        JsValue.vUndefined, JsValue.vStr "false".data, JsValue.vUndefined⟩
      "ab".data 255 "t".data).wantsAutomation = false := by
  have h := wants_flags_truthiness
    ⟨JsValue.vStr "i".data, JsValue.vStr "p".data, JsValue.vUndefined,
     JsValue.vStr "m".data, JsValue.vStr "c".data, JsValue.vUndefined,
     JsValue.vStr "false".data, JsValue.vUndefined⟩
    "ab".data 255 "t".data [] (by decide) (by decide) (by decide) (by decide)
  refine ⟨?_, ?_⟩
  · rw [h.2.1]; decide
  · rw [h.2.2.1]; decide

/-- C3: on an `/api/` path (with the clock at or past epoch +3000 ms, as
`Date.now()` always is), a request is answered `429` with the exact
throttle body precisely when the identifier has a recorded timestamp
less than 3000 ms old; on reject neither the timestamp map nor the lead
file changes, and on admit the identifier's entry is set to `now`. -/
theorem rate_limit_gate (path ip : List Char) (now : Nat)
    (body : Option ReqBody) (rh ca : List Char) (wk : Bool)
    (st : ServerState)
    (hapi : "/api/".data.isPrefixOf path = true)
    (hclock : 3000 ≤ now) :
    ((serverStep path ip now body rh ca wk st).1 =
        Response.tooMany429 errThrottle ↔
      ¬(st.lastHit ip = none ∨
        3000 ≤ (now : Int) - (((st.lastHit ip).getD 0 : Nat) : Int))) ∧
    ((serverStep path ip now body rh ca wk st).1 =
        Response.tooMany429 errThrottle →
      (serverStep path ip now body rh ca wk st).2.lastHit = st.lastHit ∧
      (serverStep path ip now body rh ca wk st).2.leads = st.leads) ∧
    ((serverStep path ip now body rh ca wk st).1 ≠
        Response.tooMany429 errThrottle →
      (serverStep path ip now body rh ca wk st).2.lastHit ip = some now) := by
  have hstep : serverStep path ip now body rh ca wk st =
      (if (now : Int) - (((st.lastHit ip).getD 0 : Nat) : Int) < 3000 then
        (Response.tooMany429 errThrottle, st)
      else if path = "/api/lead".data then
        ((handleLead body rh now ca wk st.leads).1,
         ⟨fun k => if k = ip then some now else st.lastHit k,
          (handleLead body rh now ca wk st.leads).2⟩)
      else (Response.other,
        ⟨fun k => if k = ip then some now else st.lastHit k, st.leads⟩)) := by
    unfold serverStep
    simp [hapi]
  by_cases hlt : (now : Int) - (((st.lastHit ip).getD 0 : Nat) : Int) < 3000
  · rw [hstep, if_pos hlt]
    refine ⟨⟨fun _ => ?_, fun _ => rfl⟩, fun _ => ⟨rfl, rfl⟩,
      fun hne => absurd rfl hne⟩
    rintro (hn | hge)
    · rw [hn] at hlt
      simp only [Option.getD_none, Nat.cast_zero, Int.sub_zero] at hlt
      omega
    · omega
  · rw [hstep, if_neg hlt]
    have hge : 3000 ≤ (now : Int) - (((st.lastHit ip).getD 0 : Nat) : Int) := by
      omega
    by_cases hpath : path = "/api/lead".data
    · rw [if_pos hpath]
      refine ⟨⟨fun hc => ?_, fun hc => ?_⟩, fun hc => ?_, fun _ => by simp⟩
      · exact absurd hc (handleLead_ne_throttle _ _ _ _ _ _ _)
      · exact absurd (Or.inr hge) hc
      · exact absurd hc (handleLead_ne_throttle _ _ _ _ _ _ _)
    · rw [if_neg hpath]
      refine ⟨⟨fun hc => ?_, fun hc => ?_⟩, fun hc => ?_, fun _ => by simp⟩
      · exact absurd hc (by simp)
      · exact absurd (Or.inr hge) hc
      · exact absurd hc (by simp)

/-- Witness for C3: a first-ever request from an identifier at time 5000
is admitted and its timestamp is recorded. -/
theorem rate_limit_gate_witness :
    (serverStep "/api/lead".data "ip".data 5000 none "ab".data "t".data
        true ⟨fun _ => none, []⟩).2.lastHit "ip".data = some 5000 := by
  have h := rate_limit_gate "/api/lead".data "ip".data 5000 none "ab".data
    "t".data true ⟨fun _ => none, []⟩ (by decide) (by decide)
  apply h.2.2
  intro hcontra
  rw [h.1] at hcontra
  exact hcontra (Or.inl rfl)

/-- C8: the rate limiter gates only `/api/` paths: a request to any
other path is never throttled and leaves the whole state — in
particular the per-IP timestamp map — unchanged. -/
theorem non_api_bypass (path ip : List Char) (now : Nat)
    (body : Option ReqBody) (rh ca : List Char) (wk : Bool)
    (st : ServerState)
    (h : "/api/".data.isPrefixOf path = false) :
    serverStep path ip now body rh ca wk st = (Response.other, st) := by
  unfold serverStep
  simp [h]

/-- Witness for C8: a `/health` request bypasses the limiter. -/
theorem non_api_bypass_witness :
    serverStep "/health".data "ip".data 5000 none "ab".data "t".data true
      ⟨fun _ => none, []⟩ = (Response.other, ⟨fun _ => none, []⟩) :=
  non_api_bypass "/health".data "ip".data 5000 none "ab".data "t".data
    true ⟨fun _ => none, []⟩ (by decide)

/-- C10: the limiter's decision is per-client noninterfering: two states
agreeing on the requester's map entry (and on the lead file) produce the
same response, the same resulting entry for the requester, and the same
lead file — entries of other identifiers never cause a 429 for this
one. -/
theorem limiter_noninterference (path ip : List Char) (now : Nat)
    (body : Option ReqBody) (rh ca : List Char) (wk : Bool)
    (st1 st2 : ServerState)
    (hmap : st1.lastHit ip = st2.lastHit ip)
    (hleads : st1.leads = st2.leads) :
    (serverStep path ip now body rh ca wk st1).1 =
      (serverStep path ip now body rh ca wk st2).1 ∧
    (serverStep path ip now body rh ca wk st1).2.lastHit ip =
      (serverStep path ip now body rh ca wk st2).2.lastHit ip ∧
    (serverStep path ip now body rh ca wk st1).2.leads =
      (serverStep path ip now body rh ca wk st2).2.leads := by
  unfold serverStep
  by_cases hp : "/api/".data.isPrefixOf path = true
  · by_cases hlt :
        (now : Int) - (((st2.lastHit ip).getD 0 : Nat) : Int) < 3000
    · simp [hp, hmap, hleads, hlt]
    · by_cases hpath : path = "/api/lead".data <;>
        simp [hp, hmap, hleads, hlt, hpath]
  · simp [hp, hmap, hleads]

/-- Witness for C10: a foreign identifier's fresh throttle entry does
not change the outcome for the requester. -/
theorem limiter_noninterference_witness :
    (serverStep "/api/lead".data "a".data 5000 none "r".data "t".data true
        ⟨fun _ => none, []⟩).1 =
      (serverStep "/api/lead".data "a".data 5000 none "r".data "t".data true
        ⟨fun k => if k = "b".data then some 4999 else none, []⟩).1 :=
  (limiter_noninterference "/api/lead".data "a".data 5000 none "r".data
    "t".data true ⟨fun _ => none, []⟩
    ⟨fun k => if k = "b".data then some 4999 else none, []⟩
    (by decide) rfl).1

end MarekIt
